import Mathlib

/-!
Shallow embedding of the Excel comparison engine in `app.py`
(`compare_excel_files`): workbooks, sheets, column reconciliation, row
alignment and diffing, translated from the source together with the
semantics of the tabular-library operations it calls (`align` with an
outer join, `compare`, `isnull`, `duplicated`).
-/

namespace ExcelComparer

/-- A scalar cell value as loaded from a sheet: an integer or a string. -/
inductive Val where
  | int (n : Int)
  | str (s : String)
deriving DecidableEq, Repr

/-- A cell; `none` models a missing value (NaN). -/
abbrev Cell := Option Val

/-- A loaded sheet: ordered column headers and rows, each row listing its
cells in header order. -/
structure DataFrame where
  cols : List String
  rows : List (List Cell)
deriving DecidableEq, Repr

/-- A workbook: its sheets in on-disk order, each a name with its table. -/
abbrev Workbook := List (String × DataFrame)

/-- Lower-case an ASCII letter (the case folding applied to headers). -/
def lowerChar (c : Char) : Char :=
  if 65 ≤ c.toNat ∧ c.toNat ≤ 90 then Char.ofNat (c.toNat + 32) else c

/-- Lower-case a string character by character. -/
def toLowerS (s : String) : String :=
  ⟨s.data.map lowerChar⟩

/-- Strip surrounding whitespace from a string. -/
def trimS (s : String) : String :=
  ⟨((s.data.dropWhile Char.isWhitespace).reverse.dropWhile Char.isWhitespace).reverse⟩

/-- Dictionary order on character lists. -/
def strLeData : List Char → List Char → Bool
  | [], _ => true
  | _ :: _, [] => false
  | a :: as, b :: bs => if a = b then strLeData as bs else decide (a.toNat ≤ b.toNat)

/-- Dictionary order on strings, used to model sorting. -/
def strLe (a b : String) : Bool :=
  strLeData a.data b.data

/-- Boolean total order on values, used to model the sorted union of two
row indexes produced by an outer-join alignment. -/
def valLe : Val → Val → Bool
  | .int m, .int n => decide (m ≤ n)
  | .int _, .str _ => true
  | .str _, .int _ => false
  | .str a, .str b => strLe a b

/-- Order on cells: missing keys sort after present ones. -/
def cellLe : Cell → Cell → Bool
  | none, none => true
  | none, some _ => false
  | some _, none => true
  | some a, some b => valLe a b

/-- Insert into a list at the first position allowed by the order. -/
def insertLe (le : α → α → Bool) (a : α) : List α → List α
  | [] => [a]
  | b :: bs => if le a b then a :: b :: bs else b :: insertLe le a bs

/-- Insertion sort; models the sorted function of the host language. -/
def sortLe (le : α → α → Bool) : List α → List α
  | [] => []
  | a :: as => insertLe le a (sortLe le as)

/-- Sorting a list of strings in dictionary order. -/
def sortStr (l : List String) : List String :=
  sortLe strLe l

/-- Sorted list of the distinct elements of a string list; models taking
sorted of a set built from the list. -/
def sortedSet (l : List String) : List String :=
  sortStr l.dedup

/-- Trimmed column headers of a sheet (every header stripped of
surrounding whitespace, as in the source). -/
def cleanCols (df : DataFrame) : List String :=
  df.cols.map trimS

/-- Normalized matching key of one header: lower-cased when the
comparison is case-insensitive. -/
def colKey (ci : Bool) (c : String) : String :=
  if ci then toLowerS c else c

/-- The multiset of normalized header keys of a sheet. -/
def colKeys (ci : Bool) (df : DataFrame) : List String :=
  (cleanCols df).map (colKey ci)

/-- Last-wins map from a lower-cased key to the original cleaned header,
modelling the dictionary comprehension over cleaned headers. -/
def lastWins (cs : List String) (k : String) : Option String :=
  match cs with
  | [] => none
  | c :: rest =>
    match lastWins rest k with
    | some v => some v
    | none => if toLowerS c = k then some c else none

/-- Sorted set difference of normalized header keys: the columns only on
one side. -/
def onlySorted (xs ys : List String) : List String :=
  sortedSet (xs.filter fun c => decide (c ∉ ys))

/-- Sorted set of common normalized column keys of the two sheets. -/
def commonColsOf (ci : Bool) (refDf compDf : DataFrame) : List String :=
  sortedSet ((colKeys ci refDf).filter fun c => decide (c ∈ colKeys ci compDf))

/-- First index of an element in a list, if present. -/
def idxOf? [DecidableEq α] (a : α) : List α → Option Nat
  | [] => none
  | b :: bs => if a = b then some 0 else (idxOf? a bs).map (· + 1)

/-- Index of a named column among the original headers; `none` models a
key error raised by a column lookup. -/
def colIdx (df : DataFrame) (name : String) : Option Nat :=
  idxOf? name df.cols

/-- One named column of a sheet as a list of cells. -/
def getCol (df : DataFrame) (name : String) : Option (List Cell) :=
  (colIdx df name).map fun i => df.rows.map fun r => r.getD i none

/-- Rows of a sheet restricted to the named columns, in the given order;
fails when a name is absent from the original headers. -/
def selectCols (df : DataFrame) (names : List String) : Option (List (List Cell)) :=
  (names.mapM (colIdx df)).map fun idxs =>
    df.rows.map fun r => idxs.map fun i => r.getD i none

/-- Does the list contain two equal elements (duplicated-any check on a
key column)? -/
def hasDup : List Cell → Bool
  | [] => false
  | c :: cs => c ∈ cs || hasDup cs

/-- A table keyed for row alignment: each row paired with its key. -/
abbrev KeyedTable := List (Cell × List Cell)

/-- Key a projected table by the column at position `j`, removing that
column from the data (the set-index operation). -/
def setIndex (rows : List (List Cell)) (j : Nat) : KeyedTable :=
  rows.map fun r => (r.getD j none, r.eraseIdx j)

/-- Key a projected table by 0-based row position (the default range
index). -/
def positionIndex (rows : List (List Cell)) : KeyedTable :=
  rows.enum.map fun p => (some (Val.int p.1), p.2)

/-- The key column of a keyed table. -/
def keysOf (t : KeyedTable) : List Cell :=
  t.map Prod.fst

/-- The key sequence of an outer-join alignment of two indexes: kept
as-is when the indexes already agree, otherwise the sorted union of the
distinct keys. -/
def alignKeys (k1 k2 : List Cell) : List Cell :=
  if k1 = k2 then k1
  else sortLe cellLe (k1 ++ k2.filter fun k => decide (k ∉ k1)).dedup

/-- The row of a keyed table at a key, or an all-missing row of width `w`
when the key is absent (outer-join null filling). -/
def alignedRow (t : KeyedTable) (w : Nat) (k : Cell) : List Cell :=
  match t.lookup k with
  | some r => r
  | none => List.replicate w none

/-- Outer-join row alignment of two keyed tables whose data rows have
width `w`: every key of either side, with both sides null-filled. -/
def alignTables (t1 t2 : KeyedTable) (w : Nat) : List (Cell × List Cell × List Cell) :=
  (alignKeys (keysOf t1) (keysOf t2)).map fun k =>
    (k, alignedRow t1 w k, alignedRow t2 w k)

/-- Rows classified as new: the reference side is entirely missing; the
comparison-side row is kept. -/
def newPairs (a : List (Cell × List Cell × List Cell)) : List (Cell × List Cell) :=
  (a.filter fun t => t.2.1.all Option.isNone).map fun t => (t.1, t.2.2)

/-- Rows classified as deleted: the comparison side is entirely missing;
the reference-side row is kept. -/
def deletedPairs (a : List (Cell × List Cell × List Cell)) : List (Cell × List Cell) :=
  (a.filter fun t => t.2.2.all Option.isNone).map fun t => (t.1, t.2.1)

/-- The cell-difference table kept by the compare operation: the data
columns holding at least one difference, and for every row with at least
one difference its key and, per kept column, the reference and comparison
cells, masked to missing when that cell is equal on both sides (two
missing cells in the same place count as equal). -/
structure DiffTable where
  cols : List String
  rows : List (Cell × List (Cell × Cell))
deriving DecidableEq, Repr

/-- Column positions (among the data columns) where some aligned row
differs. -/
def diffColIdxs (a : List (Cell × List Cell × List Cell)) (w : Nat) : List Nat :=
  (List.range w).filter fun j =>
    a.any fun t => decide (t.2.1.getD j none ≠ t.2.2.getD j none)

/-- The compare operation of the tabular library on an aligned pair. -/
def mkDiffTable (dataCols : List String) (a : List (Cell × List Cell × List Cell)) :
    DiffTable :=
  let idxs := diffColIdxs a dataCols.length
  { cols := idxs.map fun j => dataCols.getD j ""
    rows := (a.filter fun t => decide (t.2.1 ≠ t.2.2)).map fun t =>
      (t.1, idxs.map fun j =>
        let x := t.2.1.getD j none
        let y := t.2.2.getD j none
        if x = y then (none, none) else (x, y)) }

/-- The per-sheet row-data result slot: an error message, or the found
differences with the alignment label that was used. -/
inductive DataEntry where
  | error (msg : String)
  | found (modified : DiffTable) (newRows : List (Cell × List Cell))
      (deletedRows : List (Cell × List Cell)) (pkUsed : String)
deriving DecidableEq, Repr

/-- The duplicate-key error message, interpolating the original column
name as the source does. -/
def dupMsg (pkOrig : String) : String :=
  "Error: Duplicate values found in the primary key column \'" ++ pkOrig ++
    "\'. Cannot perform data comparison."

/-- Align two keyed tables, compare them, classify new and deleted rows,
and record an entry exactly when one of the three result frames is
non-empty in the sense of the tabular library: a frame counts as empty
when either of its axes has length zero, so the cell-difference frame
needs both a row and a kept column, and the new and deleted frames need a
row and a non-zero number of data columns. -/
def mkDataEntry (pkInput : String) (usePk : Bool) (dataCols : List String)
    (tRef tComp : KeyedTable) : Option DataEntry :=
  let a := alignTables tRef tComp dataCols.length
  let diff := mkDiffTable dataCols a
  let nw := newPairs a
  let dl := deletedPairs a
  if (diff.rows ≠ [] ∧ diff.cols ≠ []) ∨ (nw ≠ [] ∧ dataCols ≠ []) ∨
      (dl ≠ [] ∧ dataCols ≠ []) then
    some (.found diff nw dl (if usePk then pkInput else "Row Index"))
  else none

/-- The original-cased reference-side name of the requested primary-key
column: the last-wins map entry when case-insensitive, the normalized
name itself otherwise. -/
def pkOrigOf (ci : Bool) (refDf : DataFrame) (pk : String) : Option String :=
  if ci then lastWins (cleanCols refDf) (colKey ci (trimS pk))
  else some (colKey ci (trimS pk))

/-- The row-data comparison stage for one sheet pair (the source after the
column diffs are recorded): skipped when there is no common column,
otherwise project both sheets, resolve an optional primary key, validate
it for duplicates, align and diff. The outer `none` models an uncaught
exception that aborts the whole invocation; the inner option is whether a
row-data entry is recorded for the sheet. -/
def dataPart (ci : Bool) (pk : String) (refDf compDf : DataFrame) :
    Option (Option DataEntry) :=
  let commonCols := commonColsOf ci refDf compDf
  if commonCols = [] then some none
  else
    match (if ci then commonCols.mapM (lastWins (cleanCols refDf)) else some commonCols),
        (if ci then commonCols.mapM (lastWins (cleanCols compDf)) else some commonCols) with
    | some refOrig, some compOrig =>
      match selectCols refDf refOrig, selectCols compDf compOrig with
      | some refSub, some compSub =>
        if pk ≠ "" ∧ colKey ci (trimS pk) ∈ commonCols then
          match pkOrigOf ci refDf pk with
          | some pkOrig =>
            match getCol refDf pkOrig with
            | some refPkCol =>
              if hasDup refPkCol then some (some (.error (dupMsg pkOrig)))
              else
                match getCol compDf pkOrig with
                | some compPkCol =>
                  if hasDup compPkCol then some (some (.error (dupMsg pkOrig)))
                  else
                    let j := (idxOf? pkOrig refOrig).getD refOrig.length
                    some (mkDataEntry pk true (refOrig.eraseIdx j)
                      (setIndex refSub j) (setIndex compSub j))
                | none => none
            | none => none
          | none => none
        else
          some (mkDataEntry pk false refOrig (positionIndex refSub)
            (positionIndex compSub))
      | _, _ => none
    | _, _ => none

/-- The three per-sheet result slots: column diff, column-order diff and
row-data entry, each present only when the source records it. -/
structure SheetOutcome where
  colDiff : Option (List String × List String)
  orderDiff : Option (List String × List String)
  dataDiff : Option DataEntry
deriving DecidableEq, Repr

/-- The common columns of the reference side as they appear in its header
order (cleaned originals filtered to the common key set). -/
def commonOrderedRef (ci : Bool) (refDf compDf : DataFrame) : List String :=
  (cleanCols refDf).filter fun c => decide (colKey ci c ∈ commonColsOf ci refDf compDf)

/-- The common columns of the comparison side in its header order. -/
def commonOrderedComp (ci : Bool) (refDf compDf : DataFrame) : List String :=
  (cleanCols compDf).filter fun c => decide (colKey ci c ∈ commonColsOf ci refDf compDf)

/-- Process one sheet pair: record a column diff when either side has
columns the other lacks, a column-order diff when the common columns
appear in different orders, then run the row-data stage. -/
def processSheet (ci : Bool) (pk : String) (refDf compDf : DataFrame) :
    Option SheetOutcome :=
  let onlyRef := onlySorted (colKeys ci refDf) (colKeys ci compDf)
  let onlyComp := onlySorted (colKeys ci compDf) (colKeys ci refDf)
  let colDiff := if onlyRef ≠ [] ∨ onlyComp ≠ [] then some (onlyRef, onlyComp) else none
  let refOrd := commonOrderedRef ci refDf compDf
  let compOrd := commonOrderedComp ci refDf compDf
  let orderDiff := if refOrd ≠ compOrd then some (refOrd, compOrd) else none
  match dataPart ci pk refDf compDf with
  | none => none
  | some dd => some ⟨colDiff, orderDiff, dd⟩

/-- The sheet-level summary of a comparison: positional pairing of the
first sheets, or name-based pairing of the common sheet names. -/
inductive SheetSummary where
  | position (pair : String × String) (onlyRef onlyComp : List String)
  | name (common onlyRef onlyComp : List String)
deriving DecidableEq, Repr

/-- The full comparison report: sheet summary plus the three per-sheet
maps keyed by the reference sheet name, in processing order. -/
structure Results where
  sheetSummary : SheetSummary
  columnDifferences : List (String × List String × List String)
  columnOrderDifferences : List (String × List String × List String)
  dataDifferences : List (String × DataEntry)
deriving DecidableEq, Repr

/-- Read a named sheet of a workbook. -/
def lookupSheet (wb : Workbook) (name : String) : Option DataFrame :=
  wb.lookup name

/-- Prepend a keyed entry when the optional slot is filled. -/
def consOpt (k : String) (o : Option α) (l : List (String × α)) : List (String × α) :=
  match o with
  | some v => (k, v) :: l
  | none => l

/-- Process the selected sheet pairs in order, accumulating the three
per-sheet result maps; `none` when some sheet aborts the invocation. -/
def runSheets (ci : Bool) (pk : String) (refWb compWb : Workbook) :
    List (String × String) →
    Option (List (String × List String × List String) ×
      List (String × List String × List String) × List (String × DataEntry))
  | [] => some ([], [], [])
  | (rs, cs) :: rest => do
    let refDf ← lookupSheet refWb rs
    let compDf ← lookupSheet compWb cs
    let out ← processSheet ci pk refDf compDf
    let (cds, ods, dds) ← runSheets ci pk refWb compWb rest
    some (consOpt rs out.colDiff cds, consOpt rs out.orderDiff ods,
      consOpt rs out.dataDiff dds)

/-- The name-mode sheet summary parts: sorted common names, sorted names
only in the reference, sorted names only in the comparison. -/
def nameSummary (refNames compNames : List String) :
    List String × List String × List String :=
  (sortedSet (refNames.filter fun n => decide (n ∈ compNames)),
   sortedSet (refNames.filter fun n => decide (n ∉ compNames)),
   sortedSet (compNames.filter fun n => decide (n ∉ refNames)))

/-- The whole comparison engine, translated from the source: select sheet
pairs by position or by name, then process each pair; `none` models an
aborted invocation with no report. -/
def compare_excel_files (refWb compWb : Workbook) (ci : Bool) (pk : String)
    (byPos : Bool) : Option Results := do
  let refNames := refWb.map (·.1)
  let compNames := compWb.map (·.1)
  let sel : Option (List (String × String) × SheetSummary) :=
    if byPos then
      match refNames, compNames with
      | [], _ => none
      | _ :: _, [] => none
      | r :: rs, c :: cs => some ([(r, c)], .position (r, c) rs cs)
    else
      let (common, onlyRef, onlyComp) := nameSummary refNames compNames
      some (common.map fun s => (s, s), .name common onlyRef onlyComp)
  let (pairs, summary) ← sel
  let (cds, ods, dds) ← runSheets ci pk refWb compWb pairs
  some ⟨summary, cds, ods, dds⟩

/-- The row-data entry recorded for a sheet of a report, if any. -/
def dataEntryFor (r : Option Results) (sheet : String) : Option DataEntry :=
  match r with
  | some res => res.dataDifferences.lookup sheet
  | none => none

/-- The keys of the modified table of a row-data entry. -/
def modifiedKeysOf : Option DataEntry → List Cell
  | some (.found d _ _ _) => d.rows.map (·.1)
  | _ => []

/-- The keys of the new rows of a row-data entry. -/
def newKeysOf : Option DataEntry → List Cell
  | some (.found _ n _ _) => n.map (·.1)
  | _ => []

/-- The keys of the deleted rows of a row-data entry. -/
def deletedKeysOf : Option DataEntry → List Cell
  | some (.found _ _ d _) => d.map (·.1)
  | _ => []

/-- Whether the requested primary key, when it resolves to a column of the
sheet, holds no duplicate values there. -/
def pkDupFree (ci : Bool) (df : DataFrame) (pk : String) : Bool :=
  match pkOrigOf ci df pk with
  | some s =>
    match getCol df s with
    | some col => !hasDup col
    | none => true
  | none => true

/-- An integer cell. -/
def vInt (n : Int) : Cell := some (Val.int n)

/-- A string cell. -/
def vStr (s : String) : Cell := some (Val.str s)

/-- Concrete reference sheet of the documented row-diff scenario. -/
def refData4 : DataFrame :=
  ⟨["ID", "Name", "Amount"],
   [[vInt 1, vStr "Alice", vInt 10], [vInt 2, vStr "Bob", vInt 20]]⟩

/-- Concrete comparison sheet of the documented row-diff scenario. -/
def compData4 : DataFrame :=
  ⟨["ID", "Name", "Amount"],
   [[vInt 1, vStr "Alice", vInt 15], [vInt 3, vStr "Cara", vInt 30]]⟩

/-- The report of the documented row-diff scenario. -/
def rpt4 : Option Results :=
  compare_excel_files [("Data", refData4)] [("Data", compData4)] true "ID" false

/-- Reference sheet exercising a primary key that is not a column. -/
def refData1 : DataFrame := ⟨["ID", "Name"], [[vInt 1, vStr "Alice"]]⟩

/-- Comparison sheet exercising a primary key that is not a column. -/
def compData1 : DataFrame := ⟨["ID", "Name"], [[vInt 1, vStr "Bob"]]⟩

/-- Reference sheet whose primary-key column has no duplicates. -/
def refData3 : DataFrame := ⟨["ID", "Val"], [[vInt 1, vStr "x"], [vInt 2, vStr "y"]]⟩

/-- Comparison sheet whose primary-key column (cased differently) has
duplicate values. -/
def compData3 : DataFrame := ⟨["id", "Val"], [[vInt 5, vStr "a"], [vInt 5, vStr "b"]]⟩

/-- A one-sheet workbook whose only column holds duplicate values. -/
def wbDup : Workbook := [("S", ⟨["ID", "V"], [[vInt 1, vStr "p"], [vInt 1, vStr "q"]]⟩)]

/-- Reference sheet of the column-order scenario. -/
def refData8 : DataFrame := ⟨["A", "B", "C"], []⟩

/-- Comparison sheet of the column-order scenario. -/
def compData8 : DataFrame := ⟨["C", "A", "B"], []⟩

/-- Reference sheet with the upper-cased header. -/
def refData7 : DataFrame := ⟨["ID"], []⟩

/-- Comparison sheet with the lower-cased header. -/
def compData7 : DataFrame := ⟨["id"], []⟩

/-- Reference sheet with a column set disjoint from the comparison. -/
def refData10 : DataFrame := ⟨["A"], []⟩

/-- Comparison sheet with a column set disjoint from the reference. -/
def compData10 : DataFrame := ⟨["B"], []⟩

/-- A minimal sheet used by the position-mode scenario. -/
def sheetX : DataFrame := ⟨["X"], []⟩

/-- Position-mode reference workbook with two sheets. -/
def wbPosRef : Workbook := [("Sheet1", sheetX), ("Sheet2", sheetX)]

/-- Position-mode comparison workbook with one sheet. -/
def wbPosComp : Workbook := [("SheetA", sheetX)]

/-- A keyed table with the single key 1. -/
def tOnly1 : KeyedTable := [(vInt 1, [vInt 10])]

/-- A keyed table with the single key 2. -/
def tOnly2 : KeyedTable := [(vInt 2, [vInt 20])]

theorem mem_insertLe {le : α → α → Bool} {a b : α} {l : List α} :
    a ∈ insertLe le b l ↔ a = b ∨ a ∈ l := by
  induction l with
  | nil => simp [insertLe]
  | cons c cs ih =>
    simp only [insertLe]
    split
    · simp
    · simp only [List.mem_cons, ih]
      tauto

theorem mem_sortLe {le : α → α → Bool} {a : α} {l : List α} :
    a ∈ sortLe le l ↔ a ∈ l := by
  induction l with
  | nil => simp [sortLe]
  | cons b bs ih => simp [sortLe, mem_insertLe, ih]

theorem mem_sortedSet {a : String} {l : List String} :
    a ∈ sortedSet l ↔ a ∈ l := by
  simp [sortedSet, sortStr, mem_sortLe, List.mem_dedup]

theorem mem_onlySorted {a : String} {xs ys : List String} :
    a ∈ onlySorted xs ys ↔ a ∈ xs ∧ a ∉ ys := by
  simp [onlySorted, mem_sortedSet, List.mem_filter]

theorem mem_commonColsOf {a : String} {ci : Bool} {r c : DataFrame} :
    a ∈ commonColsOf ci r c ↔ a ∈ colKeys ci r ∧ a ∈ colKeys ci c := by
  simp [commonColsOf, mem_sortedSet, List.mem_filter]

theorem sortedSet_nil : sortedSet [] = [] := rfl

theorem sortedSet_ne_nil {l : List String} (h : l ≠ []) : sortedSet l ≠ [] := by
  obtain ⟨a, as, rfl⟩ := List.exists_cons_of_ne_nil h
  intro he
  have : a ∈ sortedSet (a :: as) := mem_sortedSet.mpr (List.mem_cons_self a as)
  simp [he] at this

theorem lookup_isSome_iff [BEq α] [LawfulBEq α] {t : List (α × β)} {k : α} :
    (t.lookup k).isSome ↔ k ∈ t.map Prod.fst := by
  induction t with
  | nil => simp [List.lookup]
  | cons p ps ih =>
    obtain ⟨a, b⟩ := p
    by_cases h : k = a
    · simp [List.lookup, h]
    · have hb : (k == a) = false := beq_eq_false_iff_ne.mpr h
      simp [List.lookup, hb, ih, h]

theorem lookup_eq_some_mem [BEq α] [LawfulBEq α] {t : List (α × β)} {k : α} {r : β}
    (h : t.lookup k = some r) : (k, r) ∈ t := by
  induction t with
  | nil => simp [List.lookup] at h
  | cons p ps ih =>
    obtain ⟨a, b⟩ := p
    by_cases hk : k = a
    · subst hk
      simp [List.lookup] at h
      simp [h]
    · have hb : (k == a) = false := beq_eq_false_iff_ne.mpr hk
      simp [List.lookup, hb] at h
      exact List.mem_cons_of_mem _ (ih h)

theorem lookup_eq_none [BEq α] [LawfulBEq α] {t : List (α × β)} {k : α}
    (h : k ∉ t.map Prod.fst) : t.lookup k = none := by
  cases hl : t.lookup k with
  | none => rfl
  | some r =>
    exact absurd (lookup_isSome_iff.mp (by simp [hl])) h

theorem mapM_aux_some_of_forall {f : α → Option β} {l : List α}
    (h : ∀ a ∈ l, (f a).isSome) : (l.mapM' f).isSome := by
  induction l with
  | nil => simp
  | cons a as ih =>
    obtain ⟨b, hb⟩ := Option.isSome_iff_exists.mp (h a (List.mem_cons_self a as))
    obtain ⟨bs, hbs⟩ := Option.isSome_iff_exists.mp
      (ih fun x hx => h x (List.mem_cons_of_mem _ hx))
    simp [List.mapM'_cons, hb, hbs]

theorem mapM_aux_length {f : α → Option β} {l : List α} {l2 : List β}
    (h : l.mapM' f = some l2) : l2.length = l.length := by
  induction l generalizing l2 with
  | nil => simp at h; simp [← h]
  | cons a as ih =>
    simp only [List.mapM'_cons, Option.bind_eq_bind, Option.pure_def] at h
    cases hb : f a with
    | none => simp [hb] at h
    | some b =>
      cases hbs : as.mapM' f with
      | none => simp [hb, hbs] at h
      | some bs =>
        simp [hb, hbs] at h
        simp [← h, ih hbs]

theorem mem_of_mapM_aux {f : α → Option β} {l : List α} {l2 : List β}
    (h : l.mapM' f = some l2) {b : β} (hb : b ∈ l2) : ∃ a ∈ l, f a = some b := by
  induction l generalizing l2 with
  | nil =>
    simp only [List.mapM'_nil, Option.pure_def, Option.some.injEq] at h
    rw [← h] at hb
    simp at hb
  | cons a as ih =>
    simp only [List.mapM'_cons, Option.bind_eq_bind, Option.pure_def] at h
    cases hfa : f a with
    | none => simp [hfa] at h
    | some b0 =>
      cases hbs : as.mapM' f with
      | none => simp [hfa, hbs] at h
      | some bs =>
        simp [hfa, hbs] at h
        rw [← h] at hb
        rcases List.mem_cons.mp hb with he | hm
        · exact ⟨a, List.mem_cons_self a as, by rw [hfa, he]⟩
        · obtain ⟨x, hx, hfx⟩ := ih hbs hm
          exact ⟨x, List.mem_cons_of_mem _ hx, hfx⟩

theorem mapM_aux_mem_of {f : α → Option β} {l : List α} {l2 : List β}
    (h : l.mapM' f = some l2) {a : α} (ha : a ∈ l) {b : β} (hb : f a = some b) :
    b ∈ l2 := by
  induction l generalizing l2 with
  | nil => simp at ha
  | cons x xs ih =>
    simp only [List.mapM'_cons, Option.bind_eq_bind, Option.pure_def] at h
    cases hfx : f x with
    | none => simp [hfx] at h
    | some b0 =>
      cases hbs : xs.mapM' f with
      | none => simp [hfx, hbs] at h
      | some bs =>
        simp [hfx, hbs] at h
        rcases List.mem_cons.mp ha with he | hm
        · subst he
          rw [hfx] at hb
          have hbb : b0 = b := by injection hb
          rw [← h, hbb]
          exact List.mem_cons_self _ _
        · rw [← h]
          exact List.mem_cons_of_mem _ (ih hbs hm)

theorem mapM_some_of_forall {f : α → Option β} {l : List α}
    (h : ∀ a ∈ l, (f a).isSome) : (l.mapM f).isSome := by
  rw [← List.mapM'_eq_mapM]
  exact mapM_aux_some_of_forall h

theorem mapM_length {f : α → Option β} {l : List α} {l2 : List β}
    (h : l.mapM f = some l2) : l2.length = l.length := by
  rw [← List.mapM'_eq_mapM] at h
  exact mapM_aux_length h

theorem mem_of_mapM {f : α → Option β} {l : List α} {l2 : List β}
    (h : l.mapM f = some l2) {b : β} (hb : b ∈ l2) : ∃ a ∈ l, f a = some b := by
  rw [← List.mapM'_eq_mapM] at h
  exact mem_of_mapM_aux h hb

theorem mapM_mem_of {f : α → Option β} {l : List α} {l2 : List β}
    (h : l.mapM f = some l2) {a : α} (ha : a ∈ l) {b : β} (hb : f a = some b) :
    b ∈ l2 := by
  rw [← List.mapM'_eq_mapM] at h
  exact mapM_aux_mem_of h ha hb

theorem idxOf?_isSome [DecidableEq α] {a : α} {l : List α} (h : a ∈ l) :
    (idxOf? a l).isSome := by
  induction l with
  | nil => simp at h
  | cons b bs ih =>
    by_cases he : a = b
    · simp [idxOf?, he]
    · rcases List.mem_cons.mp h with h1 | h2
      · exact absurd h1 he
      · simp only [idxOf?, if_neg he]
        obtain ⟨i, hi⟩ := Option.isSome_iff_exists.mp (ih h2)
        simp [hi]

theorem idxOf?_lt_length [DecidableEq α] {a : α} {l : List α} {i : Nat}
    (h : idxOf? a l = some i) : i < l.length := by
  induction l generalizing i with
  | nil => simp [idxOf?] at h
  | cons b bs ih =>
    by_cases he : a = b
    · simp [idxOf?, he] at h
      simp [← h]
    · simp only [idxOf?, if_neg he] at h
      cases hj : idxOf? a bs with
      | none => simp [hj] at h
      | some j =>
        simp [hj] at h
        have := ih hj
        simp [← h]
        omega

theorem lastWins_isSome {cs : List String} {k : String} :
    (lastWins cs k).isSome ↔ k ∈ cs.map toLowerS := by
  induction cs with
  | nil => simp [lastWins]
  | cons c rest ih =>
    simp only [lastWins, List.map_cons, List.mem_cons]
    cases hr : lastWins rest k with
    | some v =>
      simp only [Option.isSome_some, true_iff]
      exact Or.inr (ih.mp (by simp [hr]))
    | none =>
      have hrest : k ∉ List.map toLowerS rest := fun hm => by
        have := ih.mpr hm
        simp [hr] at this
      by_cases he : toLowerS c = k
      · simp [he]
      · have hne : ¬k = toLowerS c := fun hk => he hk.symm
        simp [he, hne, hrest]

theorem lastWins_mem {cs : List String} {k v : String} (h : lastWins cs k = some v) :
    v ∈ cs ∧ toLowerS v = k := by
  induction cs with
  | nil => simp [lastWins] at h
  | cons c rest ih =>
    simp only [lastWins] at h
    cases hr : lastWins rest k with
    | some w =>
      rw [hr] at h
      obtain ⟨hm, hl⟩ := ih (hr.trans h)
      exact ⟨List.mem_cons_of_mem _ hm, hl⟩
    | none =>
      rw [hr] at h
      by_cases he : toLowerS c = k
      · simp [he] at h
        subst h
        exact ⟨List.mem_cons_self _ _, he⟩
      · simp [he] at h

theorem mem_alignKeys {k : Cell} {k1 k2 : List Cell} :
    k ∈ alignKeys k1 k2 ↔ k ∈ k1 ∨ k ∈ k2 := by
  unfold alignKeys
  split
  · rename_i he
    rw [he]
    tauto
  · simp only [mem_sortLe, List.mem_dedup, List.mem_append, List.mem_filter,
      decide_eq_true_eq]
    tauto

theorem alignedRow_of_mem {t : KeyedTable} {w : Nat} {k : Cell} (h : k ∈ keysOf t) :
    ∃ r, (k, r) ∈ t ∧ alignedRow t w k = r := by
  have hs : (t.lookup k).isSome := lookup_isSome_iff.mpr (by simpa [keysOf] using h)
  obtain ⟨r, hr⟩ := Option.isSome_iff_exists.mp hs
  exact ⟨r, lookup_eq_some_mem hr, by simp [alignedRow, hr]⟩

theorem alignedRow_of_not_mem {t : KeyedTable} {w : Nat} {k : Cell} (h : k ∉ keysOf t) :
    alignedRow t w k = List.replicate w none := by
  have hn : t.lookup k = none := lookup_eq_none (by simpa [keysOf] using h)
  simp [alignedRow, hn]

theorem mem_filter_aligned_keys {t1 t2 : KeyedTable} {w : Nat}
    {p : Cell × List Cell × List Cell → Bool} {k : Cell} :
    k ∈ (((alignTables t1 t2 w).filter p).map Prod.fst) ↔
      (k ∈ keysOf t1 ∨ k ∈ keysOf t2) ∧
        p (k, alignedRow t1 w k, alignedRow t2 w k) = true := by
  constructor
  · intro hk
    obtain ⟨x, hx, hfst⟩ := List.mem_map.mp hk
    obtain ⟨hxa, hp⟩ := List.mem_filter.mp hx
    obtain ⟨k0, hk0, hxe⟩ := List.mem_map.mp (by simpa [alignTables] using hxa)
    have hk0k : k0 = k := by rw [← hxe] at hfst; exact hfst
    subst hk0k
    rw [← hxe] at hp
    exact ⟨mem_alignKeys.mp hk0, hp⟩
  · rintro ⟨hmem, hp⟩
    refine List.mem_map.mpr ⟨(k, alignedRow t1 w k, alignedRow t2 w k), ?_, rfl⟩
    refine List.mem_filter.mpr ⟨?_, hp⟩
    simp only [alignTables, List.mem_map]
    exact ⟨k, mem_alignKeys.mpr hmem, rfl⟩

theorem mem_newPairs_keys {t1 t2 : KeyedTable} {w : Nat} {k : Cell} :
    k ∈ (newPairs (alignTables t1 t2 w)).map Prod.fst ↔
      (k ∈ keysOf t1 ∨ k ∈ keysOf t2) ∧
        (alignedRow t1 w k).all Option.isNone = true := by
  unfold newPairs
  rw [List.map_map]
  have hc : (Prod.fst ∘ fun t : Cell × List Cell × List Cell => (t.1, t.2.2)) =
      (Prod.fst : Cell × List Cell × List Cell → Cell) := by
    funext x
    rfl
  rw [hc]
  exact mem_filter_aligned_keys

theorem mem_deletedPairs_keys {t1 t2 : KeyedTable} {w : Nat} {k : Cell} :
    k ∈ (deletedPairs (alignTables t1 t2 w)).map Prod.fst ↔
      (k ∈ keysOf t1 ∨ k ∈ keysOf t2) ∧
        (alignedRow t2 w k).all Option.isNone = true := by
  unfold deletedPairs
  rw [List.map_map]
  have hc : (Prod.fst ∘ fun t : Cell × List Cell × List Cell => (t.1, t.2.1)) =
      (Prod.fst : Cell × List Cell × List Cell → Cell) := by
    funext x
    rfl
  rw [hc]
  exact mem_filter_aligned_keys

theorem mem_diffTable_keys {dataCols : List String} {t1 t2 : KeyedTable} {k : Cell} :
    k ∈ (mkDiffTable dataCols (alignTables t1 t2 dataCols.length)).rows.map Prod.fst ↔
      (k ∈ keysOf t1 ∨ k ∈ keysOf t2) ∧
        alignedRow t1 dataCols.length k ≠ alignedRow t2 dataCols.length k := by
  unfold mkDiffTable
  simp only
  rw [List.map_map]
  have hc : ((Prod.fst : Cell × List (Cell × Cell) → Cell) ∘ fun t :
      Cell × List Cell × List Cell =>
      (t.1, (diffColIdxs (alignTables t1 t2 dataCols.length) dataCols.length).map fun j =>
        let x := t.2.1.getD j none
        let y := t.2.2.getD j none
        if x = y then (none, none) else (x, y))) =
      (Prod.fst : Cell × List Cell × List Cell → Cell) := by
    funext x
    rfl
  rw [hc]
  rw [mem_filter_aligned_keys]
  simp

theorem all_isNone_false_of_exists {r : List Cell} (h : ∃ c ∈ r, c.isSome = true) :
    r.all Option.isNone = false := by
  obtain ⟨c, hc, hs⟩ := h
  cases hall : r.all Option.isNone with
  | false => rfl
  | true =>
    have hcn := List.all_eq_true.mp hall c hc
    cases c with
    | none => simp at hs
    | some v => simp at hcn

theorem replicate_all_isNone {w : Nat} :
    (List.replicate w (none : Cell)).all Option.isNone = true := by
  rw [List.all_eq_true]
  intro c hc
  rw [List.eq_of_mem_replicate hc]
  rfl

theorem ne_replicate_of_exists {r : List Cell} {w : Nat}
    (h : ∃ c ∈ r, c.isSome = true) : r ≠ List.replicate w none := by
  intro he
  obtain ⟨c, hc, hs⟩ := h
  rw [he] at hc
  rw [List.eq_of_mem_replicate hc] at hs
  simp at hs

theorem alignKeys_self {ks : List Cell} : alignKeys ks ks = ks := by
  simp [alignKeys]

theorem mkDataEntry_self {p : String} {b : Bool} {cols : List String} {t : KeyedTable}
    (h : ∀ q ∈ t, q.2.all Option.isNone = false) :
    mkDataEntry p b cols t t = none := by
  have halign : alignTables t t cols.length =
      (keysOf t).map fun k => (k, alignedRow t cols.length k, alignedRow t cols.length k) := by
    simp [alignTables, alignKeys_self]
  have hdiff : (alignTables t t cols.length).filter
      (fun tr => decide (tr.2.1 ≠ tr.2.2)) = [] := by
    rw [halign, List.filter_eq_nil_iff]
    intro a ha
    obtain ⟨k, hk, he⟩ := List.mem_map.mp ha
    rw [← he]
    simp
  have hrowNotNone : ∀ k ∈ keysOf t,
      (alignedRow t cols.length k).all Option.isNone = false := by
    intro k hk
    obtain ⟨r, hrt, hre⟩ := alignedRow_of_mem (w := cols.length) hk
    rw [hre]
    exact h _ hrt
  have hnew : (alignTables t t cols.length).filter
      (fun tr => tr.2.1.all Option.isNone) = [] := by
    rw [halign, List.filter_eq_nil_iff]
    intro a ha
    obtain ⟨k, hk, he⟩ := List.mem_map.mp ha
    rw [← he]
    simp [hrowNotNone k hk]
  have hdel : (alignTables t t cols.length).filter
      (fun tr => tr.2.2.all Option.isNone) = [] := by
    rw [halign, List.filter_eq_nil_iff]
    intro a ha
    obtain ⟨k, hk, he⟩ := List.mem_map.mp ha
    rw [← he]
    simp [hrowNotNone k hk]
  simp only [mkDataEntry, mkDiffTable, newPairs, deletedPairs, hdiff, hnew, hdel,
    List.map_nil, ne_eq, not_true_eq_false, or_self, if_false]
  simp

theorem mkDataEntry_nil_cols {p : String} {b : Bool} {t1 t2 : KeyedTable} :
    mkDataEntry p b [] t1 t2 = none := by
  simp [mkDataEntry, mkDiffTable, diffColIdxs]

theorem map_eq_self_of {f : α → α} {l : List α} (h : ∀ a ∈ l, f a = a) : l.map f = l :=
  (List.map_congr_left h).trans (List.map_id l)

theorem cleanCols_eq_cols {df : DataFrame} (h : ∀ c ∈ df.cols, trimS c = c) :
    cleanCols df = df.cols :=
  map_eq_self_of h

theorem colKeys_true {df : DataFrame} : colKeys true df = (cleanCols df).map toLowerS := by
  simp [colKeys, colKey]

theorem colKeys_false {df : DataFrame} : colKeys false df = cleanCols df := by
  simp [colKeys, colKey]
  exact List.map_id _

theorem getCol_isSome {df : DataFrame} {s : String} (h : s ∈ df.cols) :
    (getCol df s).isSome := by
  obtain ⟨i, hi⟩ := Option.isSome_iff_exists.mp (idxOf?_isSome h)
  simp [getCol, colIdx, hi]

theorem selectCols_some {df : DataFrame} {names : List String}
    (hmem : ∀ n ∈ names, n ∈ df.cols)
    (hrows : ∀ r ∈ df.rows, r.length = df.cols.length ∧ ∀ c ∈ r, c.isSome = true) :
    ∃ sub, selectCols df names = some sub ∧
      ∀ r ∈ sub, r.length = names.length ∧ ∀ c ∈ r, c.isSome = true := by
  have hidx : ∀ n ∈ names, (colIdx df n).isSome := fun n hn => idxOf?_isSome (hmem n hn)
  obtain ⟨idxs, hidxs⟩ := Option.isSome_iff_exists.mp (mapM_some_of_forall hidx)
  refine ⟨df.rows.map fun r => idxs.map fun i => r.getD i none, ?_, ?_⟩
  · unfold selectCols
    rw [hidxs]
    rfl
  intro r hr
  obtain ⟨r0, hr0, hre⟩ := List.mem_map.mp hr
  constructor
  · rw [← hre]
    simp [mapM_length hidxs]
  · intro c hc
    rw [← hre] at hc
    obtain ⟨i, hi, hce⟩ := List.mem_map.mp hc
    obtain ⟨n, _, hfn⟩ := mem_of_mapM hidxs hi
    have hlt : i < df.cols.length := idxOf?_lt_length hfn
    have hr0l := (hrows r0 hr0).1
    have hir : i < r0.length := by rw [hr0l]; exact hlt
    rw [← hce, List.getD_eq_getElem r0 none hir]
    exact (hrows r0 hr0).2 _ (List.getElem_mem hir)

theorem mem_positionIndex {rows : List (List Cell)} {q : Cell × List Cell}
    (h : q ∈ positionIndex rows) : q.2 ∈ rows := by
  obtain ⟨p, hp, he⟩ := List.mem_map.mp h
  obtain ⟨i, r⟩ := p
  rw [← he]
  exact List.getElem?_mem (List.mem_enum_iff_getElem?.mp hp)

theorem mem_setIndex {rows : List (List Cell)} {j : Nat} {q : Cell × List Cell}
    (h : q ∈ setIndex rows j) : ∃ r ∈ rows, q.2 = r.eraseIdx j := by
  obtain ⟨r, hr, he⟩ := List.mem_map.mp h
  exact ⟨r, hr, by rw [← he]⟩

theorem row_not_allNone {r : List Cell} (hne : r ≠ []) (hs : ∀ c ∈ r, c.isSome = true) :
    r.all Option.isNone = false := by
  obtain ⟨c, cs, rfl⟩ := List.exists_cons_of_ne_nil hne
  exact all_isNone_false_of_exists ⟨c, List.mem_cons_self _ _, hs c (List.mem_cons_self _ _)⟩

theorem dataPart_self {ci : Bool} {pk : String} {df : DataFrame}
    (hclean : ∀ c ∈ df.cols, trimS c = c)
    (hrows : ∀ r ∈ df.rows, r.length = df.cols.length ∧ ∀ c ∈ r, c.isSome = true)
    (hpk : pk ≠ "" → colKey ci (trimS pk) ∈ commonColsOf ci df df →
      pkDupFree ci df pk = true) :
    dataPart ci pk df df = some none := by
  by_cases hC : commonColsOf ci df df = []
  · simp [dataPart, hC]
  have horig : ∃ orig,
      (if ci then (commonColsOf ci df df).mapM (lastWins (cleanCols df))
       else some (commonColsOf ci df df)) = some orig ∧
      (∀ n ∈ orig, n ∈ df.cols) ∧ orig.length = (commonColsOf ci df df).length := by
    cases ci with
    | true =>
      have hall : ∀ c ∈ commonColsOf true df df, (lastWins (cleanCols df) c).isSome := by
        intro c hc
        have hk : c ∈ colKeys true df := (mem_commonColsOf.mp hc).1
        rw [colKeys_true] at hk
        exact lastWins_isSome.mpr hk
      obtain ⟨orig, ho⟩ := Option.isSome_iff_exists.mp (mapM_some_of_forall hall)
      refine ⟨orig, by rw [if_pos rfl]; exact ho, ?_, mapM_length ho⟩
      intro n hn
      obtain ⟨c, _, hfc⟩ := mem_of_mapM ho hn
      have hm := (lastWins_mem hfc).1
      rwa [cleanCols_eq_cols hclean] at hm
    | false =>
      refine ⟨commonColsOf false df df, by rw [if_neg Bool.false_ne_true], ?_, rfl⟩
      intro n hn
      have hk : n ∈ colKeys false df := (mem_commonColsOf.mp hn).1
      rwa [colKeys_false, cleanCols_eq_cols hclean] at hk
  obtain ⟨orig, horigeq, horigmem, horiglen⟩ := horig
  obtain ⟨sub, hsubeq, hsubrows⟩ := selectCols_some horigmem hrows
  have hlen1 : 1 ≤ orig.length := by
    rw [horiglen]
    exact List.length_pos.mpr hC
  simp only [dataPart]
  rw [if_neg hC]
  simp only [horigeq, hsubeq]
  by_cases hcond : pk ≠ "" ∧ colKey ci (trimS pk) ∈ commonColsOf ci df df
  · have hpko : ∃ s, pkOrigOf ci df pk = some s ∧ s ∈ df.cols := by
      cases ci with
      | true =>
        have hk : colKey true (trimS pk) ∈ colKeys true df := (mem_commonColsOf.mp hcond.2).1
        rw [colKeys_true] at hk
        obtain ⟨s, hs⟩ := Option.isSome_iff_exists.mp (lastWins_isSome.mpr hk)
        refine ⟨s, by simp only [pkOrigOf, if_pos rfl]; exact hs, ?_⟩
        have hm := (lastWins_mem hs).1
        rwa [cleanCols_eq_cols hclean] at hm
      | false =>
        refine ⟨colKey false (trimS pk),
          by simp only [pkOrigOf, if_neg Bool.false_ne_true], ?_⟩
        have hk : colKey false (trimS pk) ∈ colKeys false df := (mem_commonColsOf.mp hcond.2).1
        rwa [colKeys_false, cleanCols_eq_cols hclean] at hk
    obtain ⟨s, hseq, hsmem⟩ := hpko
    obtain ⟨col, hcol⟩ := Option.isSome_iff_exists.mp (getCol_isSome hsmem)
    have hdupf : pkDupFree ci df pk = true := hpk hcond.1 hcond.2
    have hnodup : hasDup col = false := by
      simp only [pkDupFree, hseq, hcol] at hdupf
      simpa using hdupf
    have hnd : ¬(hasDup col = true) := by simp [hnodup]
    rw [if_pos hcond]
    simp only [hseq, hcol, if_neg hnd]
    by_cases hnil : orig.eraseIdx ((idxOf? s orig).getD orig.length) = []
    · rw [hnil]
      exact congrArg some mkDataEntry_nil_cols
    · refine congrArg some (mkDataEntry_self ?_)
      intro q hq
      obtain ⟨r, hr, hqe⟩ := mem_setIndex hq
      have hrl : r.length = orig.length := (hsubrows r hr).1
      have hlen0 : (orig.eraseIdx ((idxOf? s orig).getD orig.length)).length ≠ 0 :=
        fun h0 => hnil (List.length_eq_zero.mp h0)
      have hlen : 0 < (r.eraseIdx ((idxOf? s orig).getD orig.length)).length := by
        rw [List.length_eraseIdx, hrl]
        rw [List.length_eraseIdx] at hlen0
        by_cases hj : ((idxOf? s orig).getD orig.length) < orig.length
        · rw [if_pos hj] at hlen0 ⊢
          omega
        · rw [if_neg hj] at hlen0 ⊢
          omega
      rw [hqe]
      refine row_not_allNone (List.length_pos.mp hlen) ?_
      intro c hc
      exact (hsubrows r hr).2 c ((List.eraseIdx_sublist r _).subset hc)
  · rw [if_neg hcond]
    refine congrArg some (mkDataEntry_self ?_)
    intro q hq
    have hrs : q.2 ∈ sub := mem_positionIndex hq
    have hlen : 0 < q.2.length := by
      rw [(hsubrows _ hrs).1]
      omega
    exact row_not_allNone (List.length_pos.mp hlen) ((hsubrows _ hrs).2)

theorem onlySorted_self {xs : List String} : onlySorted xs xs = [] := by
  unfold onlySorted
  have hf : xs.filter (fun c => decide (c ∉ xs)) = [] := by
    rw [List.filter_eq_nil_iff]
    intro a ha
    simp [ha]
  rw [hf]
  rfl

theorem processSheet_self {ci : Bool} {pk : String} {df : DataFrame}
    (hclean : ∀ c ∈ df.cols, trimS c = c)
    (hrows : ∀ r ∈ df.rows, r.length = df.cols.length ∧ ∀ c ∈ r, c.isSome = true)
    (hpk : pk ≠ "" → colKey ci (trimS pk) ∈ commonColsOf ci df df →
      pkDupFree ci df pk = true) :
    processSheet ci pk df df = some ⟨none, none, none⟩ := by
  have hdata := dataPart_self hclean hrows hpk
  have hord : commonOrderedComp ci df df = commonOrderedRef ci df df := rfl
  simp only [processSheet, hdata, onlySorted_self, hord]
  simp

theorem runSheets_self {ci : Bool} {pk : String} {wb : Workbook}
    (hsheets : ∀ p ∈ wb, processSheet ci pk p.2 p.2 = some ⟨none, none, none⟩) :
    ∀ {pairs : List (String × String)},
      (∀ q ∈ pairs, q.2 = q.1 ∧ q.1 ∈ wb.map Prod.fst) →
      runSheets ci pk wb wb pairs = some ([], [], []) := by
  intro pairs
  induction pairs with
  | nil =>
    intro _
    rfl
  | cons q rest ih =>
    intro hp
    obtain ⟨rs, cs⟩ := q
    obtain ⟨hqe, hqm⟩ := hp (rs, cs) (List.mem_cons_self _ _)
    simp only at hqe hqm
    subst hqe
    obtain ⟨df, hdf⟩ := Option.isSome_iff_exists.mp
      ((lookup_isSome_iff (t := wb) (k := cs)).mpr hqm)
    have hmem : (cs, df) ∈ wb := lookup_eq_some_mem hdf
    have hps : processSheet ci pk df df = some ⟨none, none, none⟩ :=
      hsheets (cs, df) hmem
    have hrest := ih fun x hx => hp x (List.mem_cons_of_mem _ hx)
    simp [runSheets, lookupSheet, hdf, hps, hrest, consOpt]

theorem mem_nameSummary_common {r c : List String} {s : String}
    (h : s ∈ (nameSummary r c).1) : s ∈ r := by
  unfold nameSummary at h
  simp only at h
  exact (List.mem_filter.mp (mem_sortedSet.mp h)).1

/-- C5: comparing a workbook against itself, under the hypotheses the code
needs (trimmed headers, rectangular rows with no missing cell, a primary
key that is either not a column or duplicate-free), yields a report with
empty column, column-order and row-data difference maps. -/
theorem c5_self_comparison_amended (wb : Workbook) (ci : Bool) (pk : String) (byPos : Bool)
    (h0 : byPos = true → wb ≠ [])
    (hclean : ∀ p ∈ wb, ∀ c ∈ p.2.cols, trimS c = c)
    (hrows : ∀ p ∈ wb, ∀ r ∈ p.2.rows, r.length = p.2.cols.length ∧
      ∀ c ∈ r, c.isSome = true)
    (hpk : ∀ p ∈ wb, pk ≠ "" → colKey ci (trimS pk) ∈ commonColsOf ci p.2 p.2 →
      pkDupFree ci p.2 pk = true) :
    compare_excel_files wb wb ci pk byPos ≠ none ∧
      ∀ res, compare_excel_files wb wb ci pk byPos = some res →
        res.columnDifferences = [] ∧ res.columnOrderDifferences = [] ∧
          res.dataDifferences = [] := by
  have hsheets : ∀ p ∈ wb, processSheet ci pk p.2 p.2 = some ⟨none, none, none⟩ :=
    fun p hp => processSheet_self (hclean p hp) (hrows p hp) (hpk p hp)
  have hmain : ∃ smry, compare_excel_files wb wb ci pk byPos =
      some ⟨smry, [], [], []⟩ := by
    cases byPos with
    | true =>
      obtain ⟨q, rest, rfl⟩ := List.exists_cons_of_ne_nil (h0 rfl)
      have hrun : runSheets ci pk (q :: rest) (q :: rest) [(q.1, q.1)] =
          some ([], [], []) := by
        refine runSheets_self hsheets ?_
        intro x hx
        simp only [List.mem_singleton] at hx
        subst hx
        exact ⟨rfl, by simp⟩
      refine ⟨SheetSummary.position (q.1, q.1) (rest.map (·.1)) (rest.map (·.1)), ?_⟩
      simp only [compare_excel_files, List.map_cons]
      simp [hrun]
    | false =>
      have hrun : runSheets ci pk wb wb
          (((nameSummary (wb.map (·.1)) (wb.map (·.1))).1).map fun s => (s, s)) =
          some ([], [], []) := by
        refine runSheets_self hsheets ?_
        intro x hx
        obtain ⟨s, hs, rfl⟩ := List.mem_map.mp hx
        refine ⟨rfl, ?_⟩
        simpa using mem_nameSummary_common hs
      refine ⟨SheetSummary.name (nameSummary (wb.map (·.1)) (wb.map (·.1))).1
        (nameSummary (wb.map (·.1)) (wb.map (·.1))).2.1
        (nameSummary (wb.map (·.1)) (wb.map (·.1))).2.2, ?_⟩
      simp only [compare_excel_files]
      simp [hrun]
  obtain ⟨smry, heq⟩ := hmain
  rw [heq]
  refine ⟨by simp, ?_⟩
  intro res hres
  injection hres with h
  rw [← h]
  exact ⟨rfl, rfl, rfl⟩

theorem mkDataEntry_false_label {p q : String} {cols : List String} {t1 t2 : KeyedTable} :
    mkDataEntry p false cols t1 t2 = mkDataEntry q false cols t1 t2 := by
  simp [mkDataEntry]

theorem mkDataEntry_found_label {p : String} {b : Bool} {cols : List String}
    {t1 t2 : KeyedTable} {d : DiffTable} {n dl : List (Cell × List Cell)} {lab : String}
    (h : mkDataEntry p b cols t1 t2 = some (.found d n dl lab)) :
    lab = if b then p else "Row Index" := by
  simp only [mkDataEntry] at h
  split at h
  · injection h with h2
    injection h2 with h3 h4 h5 h6
    exact h6.symm
  · exact absurd h (by simp)

theorem dataPart_label_of_not_cond {ci : Bool} {pk : String} {refDf compDf : DataFrame}
    (hcond : ¬(pk ≠ "" ∧ colKey ci (trimS pk) ∈ commonColsOf ci refDf compDf))
    {d : DiffTable} {n dl : List (Cell × List Cell)} {lab : String}
    (h : dataPart ci pk refDf compDf = some (some (.found d n dl lab))) :
    lab = "Row Index" := by
  simp only [dataPart] at h
  by_cases hC : commonColsOf ci refDf compDf = []
  · rw [if_pos hC] at h
    simp at h
  · rw [if_neg hC] at h
    split at h
    · split at h
      · rw [if_neg hcond] at h
        injection h with h2
        have := mkDataEntry_found_label h2
        simpa using this
      · simp at h
    · simp at h

/-- C1 (amended): a requested primary key whose normalized name is not
among the common columns silently degrades to positional row alignment:
the row-data stage behaves exactly as with no primary key at all, and any
entry it records is labeled as row-index based. -/
theorem c1_pk_fallback_positional (ci : Bool) (pk : String) (refDf compDf : DataFrame)
    (hpk : colKey ci (trimS pk) ∉ commonColsOf ci refDf compDf) :
    dataPart ci pk refDf compDf = dataPart ci "" refDf compDf ∧
    ∀ d n dl lab, dataPart ci pk refDf compDf = some (some (.found d n dl lab)) →
      lab = "Row Index" := by
  have hcond : ¬(pk ≠ "" ∧ colKey ci (trimS pk) ∈ commonColsOf ci refDf compDf) :=
    fun hc => hpk hc.2
  refine ⟨?_, fun d n dl lab h => dataPart_label_of_not_cond hcond h⟩
  simp only [dataPart]
  by_cases hC : commonColsOf ci refDf compDf = []
  · rw [if_pos hC, if_pos hC]
  · have hcond0 : ¬(("" : String) ≠ "" ∧
        colKey ci (trimS "") ∈ commonColsOf ci refDf compDf) :=
      fun hc => hc.1 rfl
    rw [if_neg hC, if_neg hC]
    cases h1 : (if ci then (commonColsOf ci refDf compDf).mapM (lastWins (cleanCols refDf))
        else some (commonColsOf ci refDf compDf)) with
    | none => rfl
    | some refOrig =>
      cases h2 : (if ci then (commonColsOf ci refDf compDf).mapM (lastWins (cleanCols compDf))
          else some (commonColsOf ci refDf compDf)) with
      | none => rfl
      | some compOrig =>
        simp only []
        cases h3 : selectCols refDf refOrig with
        | none => rfl
        | some refSub =>
          cases h4 : selectCols compDf compOrig with
          | none => rfl
          | some compSub =>
            simp only []
            rw [if_neg hcond, if_neg hcond0]
            exact congrArg some mkDataEntry_false_label

/-- C1 is refuted as stated: with primary key ZZZ absent from the common
columns a row diff is still computed for the sheet, positionally, and
recorded with the row-index label. -/
theorem c1_counterexample :
    colKey true (trimS "ZZZ") ∉ commonColsOf true refData1 compData1 ∧
    dataPart true "ZZZ" refData1 compData1 =
      some (some (.found ⟨["Name"], [(vInt 0, [(vStr "Alice", vStr "Bob")])]⟩
        [] [] "Row Index")) := by
  exact ⟨by decide, by decide⟩

theorem c1_witness :
    dataPart true "ZZZ" refData1 compData1 = dataPart true "" refData1 compData1 :=
  (c1_pk_fallback_positional true "ZZZ" refData1 compData1 (by decide)).1

/-- C9: in name mode the sheet pairing is derived from sets: the common,
only-in-reference and only-in-comparison name lists have exactly the
memberships of intersection and the two set differences, are pairwise
disjoint, and together cover the union of the two name lists. -/
theorem c9_name_mode_partition (r c : List String) :
    (∀ x, x ∈ (nameSummary r c).1 ↔ x ∈ r ∧ x ∈ c) ∧
    (∀ x, x ∈ (nameSummary r c).2.1 ↔ x ∈ r ∧ x ∉ c) ∧
    (∀ x, x ∈ (nameSummary r c).2.2 ↔ x ∈ c ∧ x ∉ r) ∧
    (∀ x, x ∈ (nameSummary r c).1 → x ∉ (nameSummary r c).2.1) ∧
    (∀ x, x ∈ (nameSummary r c).1 → x ∉ (nameSummary r c).2.2) ∧
    (∀ x, x ∈ (nameSummary r c).2.1 → x ∉ (nameSummary r c).2.2) ∧
    (∀ x, (x ∈ (nameSummary r c).1 ∨ x ∈ (nameSummary r c).2.1 ∨
      x ∈ (nameSummary r c).2.2) ↔ (x ∈ r ∨ x ∈ c)) := by
  have h1 : ∀ x, x ∈ (nameSummary r c).1 ↔ x ∈ r ∧ x ∈ c := by
    intro x
    simp [nameSummary, mem_sortedSet, List.mem_filter]
  have h2 : ∀ x, x ∈ (nameSummary r c).2.1 ↔ x ∈ r ∧ x ∉ c := by
    intro x
    simp [nameSummary, mem_sortedSet, List.mem_filter]
  have h3 : ∀ x, x ∈ (nameSummary r c).2.2 ↔ x ∈ c ∧ x ∉ r := by
    intro x
    simp [nameSummary, mem_sortedSet, List.mem_filter]
  refine ⟨h1, h2, h3, ?_, ?_, ?_, ?_⟩
  · intro x hx
    rw [h2]
    exact fun hm => hm.2 ((h1 x).mp hx).2
  · intro x hx
    rw [h3]
    exact fun hm => hm.2 ((h1 x).mp hx).1
  · intro x hx
    rw [h3]
    exact fun hm => hm.2 ((h2 x).mp hx).1
  · intro x
    rw [h1, h2, h3]
    tauto

theorem c9_witness :
    "B" ∈ (nameSummary ["A", "B"] ["B", "C"]).1 ∧
      "A" ∉ (nameSummary ["A", "B"] ["B", "C"]).1 :=
  ⟨((c9_name_mode_partition ["A", "B"] ["B", "C"]).1 "B").mpr ⟨by decide, by decide⟩,
   fun h =>
     absurd (((c9_name_mode_partition ["A", "B"] ["B", "C"]).1 "A").mp h).2 (by decide)⟩

/-- C6: in position mode an empty sheet list on either side aborts the
invocation with no report; otherwise the first sheets are paired and the
unmatched lists are exactly the remaining sheet names of each side in
original order; concretely [Sheet1, Sheet2] against [SheetA] pairs
Sheet1 with SheetA and reports Sheet2 as only in the reference. -/
theorem c6_position_mode :
    (∀ (wb : Workbook) (ci : Bool) (pk : String),
      compare_excel_files [] wb ci pk true = none ∧
      compare_excel_files wb [] ci pk true = none) ∧
    (∀ (rn : String) (rdf : DataFrame) (rrest : Workbook) (cn : String)
        (cdf : DataFrame) (crest : Workbook) (ci : Bool) (pk : String) (res : Results),
      compare_excel_files ((rn, rdf) :: rrest) ((cn, cdf) :: crest) ci pk true =
        some res →
      res.sheetSummary = .position (rn, cn) (rrest.map (·.1)) (crest.map (·.1))) ∧
    compare_excel_files wbPosRef wbPosComp true "" true =
      some ⟨.position ("Sheet1", "SheetA") ["Sheet2"] [], [], [], []⟩ := by
  refine ⟨?_, ?_, by decide⟩
  · intro wb ci pk
    constructor
    · rfl
    · cases wb with
      | nil => rfl
      | cons q rest => rfl
  · intro rn rdf rrest cn cdf crest ci pk res hres
    cases hr : runSheets ci pk ((rn, rdf) :: rrest) ((cn, cdf) :: crest) [(rn, cn)] with
    | none =>
      simp [compare_excel_files, hr] at hres
    | some triple =>
      obtain ⟨cds, ods, dds⟩ := triple
      simp [compare_excel_files, hr] at hres
      rw [← hres]

theorem c6_witness :
    (⟨.position ("Sheet1", "SheetA") ["Sheet2"] [], [], [], []⟩ : Results).sheetSummary =
      .position ("Sheet1", "SheetA") ["Sheet2"] [] :=
  c6_position_mode.2.1 "Sheet1" sheetX [("Sheet2", sheetX)] "SheetA" sheetX []
    true "" _ c6_position_mode.2.2

/-- C10: a sheet pair with no common normalized column skips row
comparison entirely: the outcome carries no row-data entry and no error,
no column-order diff, and the column diff lists every column of each side
in its only-in set; the pair is processed without aborting. -/
theorem c10_no_common_columns (ci : Bool) (pk : String) (refDf compDf : DataFrame)
    (hdisj : ∀ c ∈ colKeys ci refDf, c ∉ colKeys ci compDf)
    (hne : refDf.cols ≠ []) :
    processSheet ci pk refDf compDf =
      some ⟨some (sortedSet (colKeys ci refDf), sortedSet (colKeys ci compDf)),
        none, none⟩ := by
  have hcommon : commonColsOf ci refDf compDf = [] := by
    unfold commonColsOf
    have hf : (colKeys ci refDf).filter (fun c => decide (c ∈ colKeys ci compDf)) = [] := by
      rw [List.filter_eq_nil_iff]
      intro a ha
      simp [hdisj a ha]
    rw [hf]
    rfl
  have honlyRef : onlySorted (colKeys ci refDf) (colKeys ci compDf) =
      sortedSet (colKeys ci refDf) := by
    unfold onlySorted
    congr 1
    rw [List.filter_eq_self]
    intro a ha
    simp [hdisj a ha]
  have honlyComp : onlySorted (colKeys ci compDf) (colKeys ci refDf) =
      sortedSet (colKeys ci compDf) := by
    unfold onlySorted
    congr 1
    rw [List.filter_eq_self]
    intro a ha
    simp
    exact fun hm => hdisj a hm ha
  have hkeysne : colKeys ci refDf ≠ [] := by
    unfold colKeys cleanCols
    intro hmap
    exact hne (by simpa using hmap)
  have hrefne : sortedSet (colKeys ci refDf) ≠ [] := sortedSet_ne_nil hkeysne
  have hordRef : commonOrderedRef ci refDf compDf = [] := by
    unfold commonOrderedRef
    rw [hcommon, List.filter_eq_nil_iff]
    intro a ha
    simp
  have hordComp : commonOrderedComp ci refDf compDf = [] := by
    unfold commonOrderedComp
    rw [hcommon, List.filter_eq_nil_iff]
    intro a ha
    simp
  have hdata : dataPart ci pk refDf compDf = some none := by
    simp only [dataPart]
    rw [if_pos hcommon]
  simp only [processSheet, honlyRef, honlyComp, hordRef, hordComp, hdata]
  simp [hrefne]

theorem c10_witness :
    processSheet true "" refData10 compData10 =
      some ⟨some (sortedSet (colKeys true refData10), sortedSet (colKeys true compData10)),
        none, none⟩ :=
  c10_no_common_columns true "" refData10 compData10 (by decide) (by decide)

/-- C7: trimmed headers ID and id on opposite sides are the same column
when case-insensitive (the key id is common and in neither only-in set)
and distinct columns when case-sensitive (each lands in the only-in set
of its own side of the column diff). -/
theorem c7_case_insensitive_headers (refDf compDf : DataFrame)
    (hr : "ID" ∈ cleanCols refDf) (hc : "id" ∈ cleanCols compDf)
    (hr2 : "id" ∉ cleanCols refDf) (hc2 : "ID" ∉ cleanCols compDf) :
    ("id" ∈ commonColsOf true refDf compDf ∧
     "id" ∉ onlySorted (colKeys true refDf) (colKeys true compDf) ∧
     "id" ∉ onlySorted (colKeys true compDf) (colKeys true refDf)) ∧
    ("ID" ∈ onlySorted (colKeys false refDf) (colKeys false compDf) ∧
     "id" ∈ onlySorted (colKeys false compDf) (colKeys false refDf)) := by
  have hlowID : toLowerS "ID" = "id" := by decide
  have hlowid : toLowerS "id" = "id" := by decide
  have hidr : "id" ∈ colKeys true refDf := by
    rw [colKeys_true]
    exact List.mem_map.mpr ⟨"ID", hr, hlowID⟩
  have hidc : "id" ∈ colKeys true compDf := by
    rw [colKeys_true]
    exact List.mem_map.mpr ⟨"id", hc, hlowid⟩
  refine ⟨⟨mem_commonColsOf.mpr ⟨hidr, hidc⟩, ?_, ?_⟩, ?_, ?_⟩
  · exact fun h => (mem_onlySorted.mp h).2 hidc
  · exact fun h => (mem_onlySorted.mp h).2 hidr
  · refine mem_onlySorted.mpr ⟨?_, ?_⟩
    · rwa [colKeys_false]
    · rwa [colKeys_false]
  · refine mem_onlySorted.mpr ⟨?_, ?_⟩
    · rwa [colKeys_false]
    · rwa [colKeys_false]

theorem c7_witness :
    ("id" ∈ commonColsOf true refData7 compData7 ∧
     "id" ∉ onlySorted (colKeys true refData7) (colKeys true compData7) ∧
     "id" ∉ onlySorted (colKeys true compData7) (colKeys true refData7)) ∧
    ("ID" ∈ onlySorted (colKeys false refData7) (colKeys false compData7) ∧
     "id" ∈ onlySorted (colKeys false compData7) (colKeys false refData7)) :=
  c7_case_insensitive_headers refData7 compData7 (by decide) (by decide)
    (by decide) (by decide)

/-- C8: a column-order diff is recorded for a processed sheet pair exactly
when the common columns filtered from the two header orders differ, and it
then holds both orderings; concretely reference columns [A, B, C] against
comparison columns [C, A, B] give an empty column diff and exactly that
order diff, with no row-data entry for the empty tables. -/
theorem c8_column_order_diff :
    (∀ (ci : Bool) (pk : String) (refDf compDf : DataFrame) (out : SheetOutcome),
      processSheet ci pk refDf compDf = some out →
      out.orderDiff =
        if commonOrderedRef ci refDf compDf = commonOrderedComp ci refDf compDf
        then none
        else some (commonOrderedRef ci refDf compDf, commonOrderedComp ci refDf compDf)) ∧
    processSheet true "" refData8 compData8 =
      some ⟨none, some (["A", "B", "C"], ["C", "A", "B"]), none⟩ := by
  refine ⟨?_, by decide⟩
  intro ci pk refDf compDf out hout
  simp only [processSheet] at hout
  cases hd : dataPart ci pk refDf compDf with
  | none =>
    rw [hd] at hout
    simp at hout
  | some dd =>
    rw [hd] at hout
    simp only [] at hout
    injection hout with h
    rw [← h]
    by_cases he : commonOrderedRef ci refDf compDf = commonOrderedComp ci refDf compDf
    · simp [he]
    · simp [he]

theorem c8_witness :
    SheetOutcome.orderDiff ⟨none, some (["A", "B", "C"], ["C", "A", "B"]), none⟩ =
      if commonOrderedRef true refData8 compData8 = commonOrderedComp true refData8 compData8
      then none
      else some (commonOrderedRef true refData8 compData8,
        commonOrderedComp true refData8 compData8) :=
  c8_column_order_diff.1 true "" refData8 compData8 _ c8_column_order_diff.2

/-- C2 (amended): over an outer-join alignment of keyed tables whose rows
each hold a non-missing cell, every key of either side is classified:
keys present on both sides are never new or deleted and are modified
exactly when their aligned rows differ (zero-diff keys are omitted); keys
present on exactly one side land in their one-sided class and also appear
in the modified table, so coverage holds but membership in exactly one
collection fails for one-sided keys. -/
theorem c2_alignment_classification (dataCols : List String) (tRef tComp : KeyedTable)
    (href : ∀ q ∈ tRef, ∃ c ∈ q.2, c.isSome = true)
    (hcomp : ∀ q ∈ tComp, ∃ c ∈ q.2, c.isSome = true) (k : Cell) :
    (k ∈ keysOf tRef → k ∈ keysOf tComp →
      k ∉ (newPairs (alignTables tRef tComp dataCols.length)).map Prod.fst ∧
      k ∉ (deletedPairs (alignTables tRef tComp dataCols.length)).map Prod.fst ∧
      (k ∈ (mkDiffTable dataCols (alignTables tRef tComp dataCols.length)).rows.map
          Prod.fst ↔
        alignedRow tRef dataCols.length k ≠ alignedRow tComp dataCols.length k)) ∧
    (k ∈ keysOf tRef → k ∉ keysOf tComp →
      k ∈ (deletedPairs (alignTables tRef tComp dataCols.length)).map Prod.fst ∧
      k ∉ (newPairs (alignTables tRef tComp dataCols.length)).map Prod.fst ∧
      k ∈ (mkDiffTable dataCols (alignTables tRef tComp dataCols.length)).rows.map
        Prod.fst) ∧
    (k ∉ keysOf tRef → k ∈ keysOf tComp →
      k ∈ (newPairs (alignTables tRef tComp dataCols.length)).map Prod.fst ∧
      k ∉ (deletedPairs (alignTables tRef tComp dataCols.length)).map Prod.fst ∧
      k ∈ (mkDiffTable dataCols (alignTables tRef tComp dataCols.length)).rows.map
        Prod.fst) := by
  refine ⟨?_, ?_, ?_⟩
  · intro h1 h2
    obtain ⟨r1, hr1, he1⟩ := alignedRow_of_mem (w := dataCols.length) h1
    obtain ⟨r2, hr2, he2⟩ := alignedRow_of_mem (w := dataCols.length) h2
    have hn1 : (alignedRow tRef dataCols.length k).all Option.isNone = false := by
      rw [he1]
      exact all_isNone_false_of_exists (href _ hr1)
    have hn2 : (alignedRow tComp dataCols.length k).all Option.isNone = false := by
      rw [he2]
      exact all_isNone_false_of_exists (hcomp _ hr2)
    refine ⟨?_, ?_, ?_⟩
    · intro hmem
      have := (mem_newPairs_keys.mp hmem).2
      rw [hn1] at this
      exact Bool.false_ne_true this
    · intro hmem
      have := (mem_deletedPairs_keys.mp hmem).2
      rw [hn2] at this
      exact Bool.false_ne_true this
    · rw [mem_diffTable_keys]
      constructor
      · exact fun h => h.2
      · exact fun h => ⟨Or.inl h1, h⟩
  · intro h1 h2
    obtain ⟨r1, hr1, he1⟩ := alignedRow_of_mem (w := dataCols.length) h1
    have hn1 : (alignedRow tRef dataCols.length k).all Option.isNone = false := by
      rw [he1]
      exact all_isNone_false_of_exists (href _ hr1)
    have he2 : alignedRow tComp dataCols.length k = List.replicate dataCols.length none :=
      alignedRow_of_not_mem h2
    refine ⟨?_, ?_, ?_⟩
    · refine mem_deletedPairs_keys.mpr ⟨Or.inl h1, ?_⟩
      rw [he2]
      exact replicate_all_isNone
    · intro hmem
      have := (mem_newPairs_keys.mp hmem).2
      rw [hn1] at this
      exact Bool.false_ne_true this
    · refine mem_diffTable_keys.mpr ⟨Or.inl h1, ?_⟩
      rw [he1, he2]
      exact ne_replicate_of_exists (href _ hr1)
  · intro h1 h2
    obtain ⟨r2, hr2, he2⟩ := alignedRow_of_mem (w := dataCols.length) h2
    have hn2 : (alignedRow tComp dataCols.length k).all Option.isNone = false := by
      rw [he2]
      exact all_isNone_false_of_exists (hcomp _ hr2)
    have he1 : alignedRow tRef dataCols.length k = List.replicate dataCols.length none :=
      alignedRow_of_not_mem h1
    refine ⟨?_, ?_, ?_⟩
    · refine mem_newPairs_keys.mpr ⟨Or.inr h2, ?_⟩
      rw [he1]
      exact replicate_all_isNone
    · intro hmem
      have := (mem_deletedPairs_keys.mp hmem).2
      rw [hn2] at this
      exact Bool.false_ne_true this
    · refine mem_diffTable_keys.mpr ⟨Or.inr h2, ?_⟩
      rw [he1, he2]
      exact fun h => ne_replicate_of_exists (hcomp _ hr2) h.symm

theorem c2_witness :
    vInt 1 ∈ (deletedPairs (alignTables tOnly1 tOnly2 ["V"].length)).map Prod.fst ∧
    vInt 1 ∈ (mkDiffTable ["V"] (alignTables tOnly1 tOnly2 ["V"].length)).rows.map
      Prod.fst :=
  have h := c2_alignment_classification ["V"] tOnly1 tOnly2 (by decide) (by decide) (vInt 1)
  ⟨(h.2.1 (by decide) (by decide)).1, (h.2.1 (by decide) (by decide)).2.2⟩

/-- C2 is refuted as stated: in the documented scenario the key 3, present
only in the comparison table, appears in the new rows and also in the
modified table — two of the three collections at once. -/
theorem c2_counterexample :
    newKeysOf (dataEntryFor rpt4 "Data") = [vInt 3] ∧
    vInt 3 ∈ modifiedKeysOf (dataEntryFor rpt4 "Data") := by
  exact ⟨by decide, by decide⟩

/-- C3: with reference pk column ID duplicate-free and a differently
cased comparison column id holding duplicates, the duplicate check looks
the comparison column up under the reference casing, the lookup fails and
the whole invocation aborts with no report instead of recording a
per-sheet duplicate-key error. -/
theorem c3_duplicate_key_abort :
    hasDup [vInt 5, vInt 5] = true ∧
    getCol compData3 "id" = some [vInt 5, vInt 5] ∧
    colKey true (trimS "ID") ∈ commonColsOf true refData3 compData3 ∧
    compare_excel_files [("Data", refData3)] [("Data", compData3)] true "ID" false =
      none := by
  exact ⟨by decide, by decide, by decide, by decide⟩

/-- C4 is refuted as stated: the modified table of the documented
scenario holds keys 1, 2 and 3, not key 1 alone. -/
theorem c4_counterexample :
    modifiedKeysOf (dataEntryFor rpt4 "Data") = [vInt 1, vInt 2, vInt 3] := by
  decide

/-- C4 (amended): the documented scenario yields new = key 3 with
(Amount 30, Name Cara), deleted = key 2 with (Amount 20, Name Bob), and a
modified table over diff columns [Amount, Name] holding key 1 with Amount
10 to 15 and also the one-sided keys 2 and 3 with their cells paired
against missing values. -/
theorem c4_concrete_row_diff :
    compare_excel_files [("Data", refData4)] [("Data", compData4)] true "ID" false =
      some ⟨.name ["Data"] [] [], [], [],
        [("Data", .found
          ⟨["Amount", "Name"],
           [(vInt 1, [(vInt 10, vInt 15), (none, none)]),
            (vInt 2, [(vInt 20, none), (vStr "Bob", none)]),
            (vInt 3, [(none, vInt 30), (none, vStr "Cara")])]⟩
          [(vInt 3, [vInt 30, vStr "Cara"])]
          [(vInt 2, [vInt 20, vStr "Bob"])]
          "ID")]⟩ := by
  decide

/-- C5 is refuted as stated: self-comparing a workbook whose primary-key
column holds duplicate values records an error entry for the sheet, not an
empty row diff. -/
theorem c5_counterexample :
    dataEntryFor (compare_excel_files wbDup wbDup true "ID" false) "S" =
      some (.error (dupMsg "ID")) := by
  decide

theorem c5_witness :
    compare_excel_files [("Data", refData4)] [("Data", refData4)] true "ID" false ≠
      none :=
  (c5_self_comparison_amended [("Data", refData4)] true "ID" false
    (fun h => absurd h (by decide)) (by decide) (by decide) (by decide)).1

end ExcelComparer
